import Mathlib

/-!
Verification of the AoE discord notifier (`src/main.py`) against its
natural-language specification.  The Python program is shallowly embedded:
pure methods become Lean functions, the stateful polling loop becomes an
explicit tick function, Python exceptions become `Except`, and the two
effectful collaborators (the HTTP probe used by the record-link resolver
and the webhook dispatch) are passed in as function parameters describing
their outcome.  Python `int` is embedded as `Int` and Python strings as
`String`.
-/

namespace AoEBot

/-- `ConfigPlayer` from the `aoe` package: one roster entry of the config
file (`name`, `steamId`, `profileId`). -/
structure ConfigPlayer where
  name : String
  steamId : Int
  profileId : Int
deriving DecidableEq

/-- The profile data carried by a match participant (`profile.id`,
`profile.alias`, `profile.country`). -/
structure Profile where
  id : Int
  «alias» : String
  country : Option String
deriving DecidableEq

/-- `Member` from the `aoe` package: one participant in one match.
`teamid` is the raw team id (< 0 means no team), `outcome` is positive on a
win, `replay_link` is the replay-download URL. -/
structure Member where
  profile : Profile
  oldrating : Int
  outcome : Int
  teamid : Int
  replay_link : String
deriving DecidableEq

/-- `Team` dataclass of `main.py`: a team number together with its members. -/
structure Team where
  members : List Member
  number : Int
deriving DecidableEq

/-- `Match` from the `aoe` package (the fields `main.py` reads): match id,
match-type id, map name, insights link and the flat member list. -/
structure Match where
  id : Int
  matchtype_id : Int
  mapname : String
  insights_link : String
  members : List Member
deriving DecidableEq

/-- `TeamMatch` dataclass of `main.py`: a `Match` paired with its derived
teams.  The Python attribute is called `match`, which is a reserved word in
Lean, so the field is named `mtch` here. -/
structure TeamMatch where
  mtch : Match
  teams : List Team
deriving DecidableEq

/-- The fixed `Gametypes` lookup table of `MessageFormatter.is_ranked_game`
(mode id to mode name). -/
def Gametypes : List (Int × String) :=
  [(0, "Unranked"),
   (2, "Ranked Deathmatch"),
   (6, "Ranked Random Map 1v1"),
   (7, "Ranked Random Map 2v2"),
   (8, "Ranked Random Map 3v3"),
   (9, "Ranked Random Map 4v4"),
   (26, "Ranked Empire Wars 1v1"),
   (27, "Ranked Empire Wars 2v2"),
   (28, "Ranked Empire Wars 3v3"),
   (29, "Ranked Empire Wars 4v4"),
   (120, "Ranked Return of Rome 1v1"),
   (121, "Ranked Return of Rome Team")]

/-- Python's `in` operator on strings, over the character lists: `needle`
occurs contiguously inside the haystack. -/
def strContains (needle : List Char) : List Char → Bool
  | [] => needle.isEmpty
  | c :: cs => needle.isPrefixOf (c :: cs) || strContains needle cs

/-- Python `str.lower()`, as a character list. -/
def pyLower (s : String) : List Char := s.toList.map Char.toLower

/-- `MessageFormatter.is_ranked_game`: look the match-type id up in
`Gametypes` and test `'ranked' in Gametypes[matchtype_id].lower()`; a
`KeyError` (id absent from the table) is caught and yields `False`. -/
def is_ranked_game (matchtype_id : Int) : Bool :=
  match Gametypes.find? (fun p => p.1 == matchtype_id) with
  | some p => strContains "ranked".toList (pyLower p.2)
  | none => false

/-- `MessageFormatter.is_training_game`:
`len(teammates) == len(members) or len(teams) != 2`. -/
def is_training_game (teams : List Team) (teammates : List Member)
    (members : List Member) : Bool :=
  (teammates.length == members.length) || (teams.length != 2)

/-- `MessageFormatter.extract_clan_teammates`: when the match has exactly
two teams, collect (in member order) every member once per roster entry
whose `profileId` equals the member's profile id; otherwise the empty
list. -/
def extract_clan_teammates (tm : TeamMatch) (clan_players : List ConfigPlayer) :
    List Member :=
  if tm.teams.length = 2 then
    tm.mtch.members.flatMap (fun mb =>
      (clan_players.filter (fun cp => mb.profile.id == cp.profileId)).map
        (fun _ => mb))
  else []

/-- `MessageFormatter.clan_is_winner`: `False` on a training game, else
`True` iff some teammate has `outcome > 0`. -/
def clan_is_winner (teammates : List Member) (tr : Bool) : Bool :=
  if tr then false
  else decide (0 < (teammates.filter (fun t => decide (0 < t.outcome))).length)

/-- Python `str.capitalize()`: first character uppercased, the rest
lowercased. -/
def pyCapitalize (s : String) : String :=
  match s.toList with
  | [] => ""
  | c :: cs => String.mk (c.toUpper :: cs.map Char.toLower)

/-- The name-joining loop of `MessageFormatter.generate_message`: `L` is
`len(self.teammates)`, the `Nat` argument is the `enumerate` index `n`; each
alias is capitalized and followed by `", "` while `n < L - 2`, by `" and "`
when `n = L - 2`, and by nothing for the last element. -/
def header_go (L : Nat) : Nat → List Member → String
  | _, [] => ""
  | n, mb :: rest =>
    pyCapitalize mb.profile.«alias» ++
      (if n < L - 2 then ", " else if n < L - 1 then " and " else "") ++
      header_go L (n + 1) rest

/-- The specification's phrasing of the name join: the aliases joined with
commas and a final "and" (used to compare the index-based loop of
`generate_message` against the claim's wording). -/
def joinWithAnd : List String → String
  | [] => ""
  | [x] => x
  | [x, y] => x ++ " and " ++ y
  | x :: y :: z :: rest => x ++ ", " ++ joinWithAnd (y :: z :: rest)

/-- `MessageFormatter.generate_message`: `"Match results."` on a training
game, else the joined teammate names followed by the victory/defeat phrase
(plural forms when `len(teammates) > 1`). -/
def generate_message (tr : Bool) (teammates : List Member) (victory : Bool) :
    String :=
  if tr then "Match results."
  else
    let header := header_go teammates.length 0 teammates
    if victory then
      header ++ " " ++ (if 1 < teammates.length then "are" else "is") ++
        " victorious."
    else
      header ++ " " ++ (if 1 < teammates.length then "have" else "has") ++
        " been defeated."

/-- The header-message pipeline of `MessageFormatter.__init__` followed by
`generate_message`: compute `teammates`, `is_training` and `is_victory`
exactly as the constructor does, then format the header. -/
def formatter_message (tm : TeamMatch) (clan_players : List ConfigPlayer) :
    String :=
  let teammates := extract_clan_teammates tm clan_players
  let tr := is_training_game tm.teams teammates tm.mtch.members
  let victory := clan_is_winner teammates tr
  generate_message tr teammates victory

/-- Outcome of one `requests.get` probe in `set_record_link`: either a
response with a status code, or a raised `RequestException`. -/
inductive ProbeResult where
  | status (code : Nat)
  | error
deriving DecidableEq

/-- The loop of `MessageFormatter.set_record_link`: probe each member's
`replay_link` in order; on status 200 record the link and `break`; on any
other status, or on a caught `RequestException`, continue with the next
member.  The first component is the final value of the `link` variable
(`""` when no probe returned 200), the second component instruments the
loop with the list of URLs actually probed. -/
def record_link_loop (probe : String → ProbeResult) :
    List Member → String × List String
  | [] => ("", [])
  | mb :: rest =>
    match probe mb.replay_link with
    | ProbeResult.status code =>
      if code == 200 then (mb.replay_link, [mb.replay_link])
      else
        let r := record_link_loop probe rest
        (r.1, mb.replay_link :: r.2)
    | ProbeResult.error =>
      let r := record_link_loop probe rest
      (r.1, mb.replay_link :: r.2)

/-- `MessageFormatter.set_record_link`: run the probing loop; if the found
link is truthy (non-empty) return the formatted download line, else `None`
(the implicit Python return). -/
def set_record_link (probe : String → ProbeResult) (members : List Member) :
    Option String :=
  let link := (record_link_loop probe members).1
  if link == "" then none
  else some ("▸ **[Download replay](" ++ link ++ ")**")

/-- The team-membership test of the inner loop of `Engine.set_teams`:
`member.teamid > -1 and team.number == member.teamid`. -/
def memberMatches (m : Member) (t : Team) : Bool :=
  decide (-1 < m.teamid) && (t.number == m.teamid)

/-- The effect of one inner-loop scan of `Engine.set_teams` on one existing
team: `team.members.append(member)` when the membership test holds, else
the team is untouched. -/
def appendIfMatch (m : Member) (t : Team) : Team :=
  if memberMatches m t then Team.mk (t.members ++ [m]) t.number else t

/-- One iteration of the outer loop of `Engine.set_teams`: scan the
existing teams, appending the member to every team whose number matches
(`found` becomes true if any does); if no team matched, append a fresh
singleton team keyed by the member's raw team id. -/
def addMember (teams : List Team) (m : Member) : List Team :=
  let found := teams.any (memberMatches m)
  let updated := teams.map (appendIfMatch m)
  if found then updated else updated ++ [Team.mk [m] m.teamid]

/-- The team list built by the member loop of `Engine.set_teams`, before
sorting. -/
def build_teams (members : List Member) : List Team :=
  members.foldl addMember []

/-- The sort key of `Engine.set_teams`:
`sorted(teams, key=lambda team: team.number)`. -/
def teamLE (a b : Team) : Prop := a.number ≤ b.number

instance : DecidableRel teamLE :=
  fun a b => inferInstanceAs (Decidable (a.number ≤ b.number))

instance : IsTotal Team teamLE := ⟨fun a b => Int.le_total a.number b.number⟩

instance : IsTrans Team teamLE := ⟨fun _ _ _ h1 h2 => le_trans h1 h2⟩

/-- `Engine.set_teams`: group the members into teams, then sort the teams
ascending by team number (Python `sorted` is a stable ascending sort, as is
`List.insertionSort` with a total preorder). -/
def set_teams (members : List Member) : List Team :=
  List.insertionSort teamLE (build_teams members)

/-- Loop invariant of `Engine.set_teams`: for any member, at most one
existing team passes the membership test — equivalently, non-negative team
numbers are unique among the teams built so far. -/
def TeamsInv (teams : List Team) : Prop :=
  ∀ m : Member, teams.countP (memberMatches m) ≤ 1

/-- A placed member with a non-negative team id: some team carries its
number, and the member belongs to every team carrying its number. -/
def MemProp (teams : List Team) (m : Member) : Prop :=
  0 ≤ m.teamid →
    (∃ t ∈ teams, t.number = m.teamid) ∧
    (∀ t ∈ teams, t.number = m.teamid → m ∈ t.members)

/-- Members with a negative team id only ever sit in their own singleton
team, keyed by their raw team id. -/
def NegSing (teams : List Team) : Prop :=
  ∀ t ∈ teams, ∀ m ∈ t.members, m.teamid < 0 →
    t.members = [m] ∧ t.number = m.teamid

/-- `Engine.check_results`: for each match of the new snapshot whose match
id is not found in the previous snapshot, build the formatter, generate the
message and call `webhook.send`.  `send` abstracts the webhook call
(`false` means it raises); the uncaught exception aborts the loop, which is
modelled by the second component: the aborting match, or `none` when the
loop ran to completion.  The first component lists the dispatch calls
actually made, each with its header message. -/
def check_results (send : TeamMatch → Bool) (players : List ConfigPlayer)
    (prev : List TeamMatch) :
    List TeamMatch → List (String × TeamMatch) × Option TeamMatch
  | [] => ([], none)
  | n :: rest =>
    if (prev.filter (fun p => p.mtch.id == n.mtch.id)).isEmpty then
      if send n then
        let r := check_results send players prev rest
        ((formatter_message n players, n) :: r.1, r.2)
      else ([(formatter_message n players, n)], some n)
    else check_results send players prev rest

/-- `Engine.get_lastmatches`.  Modelled from the spec: the external
match-history client (`self.cli.get_lastmatches`, from the `aoe` package,
not part of this repository) "returns a Snapshot or a failure"; a failure
is either a raised exception (`Except.error`) or a `None` return.  The
method itself has no exception handler, so a client exception propagates;
a `None` return makes the `for match in matches` loop raise a `TypeError`.
On success every fetched match is paired with its `set_teams` grouping and
the method returns the (always non-`None`) list. -/
def get_lastmatches (fetch : Except String (Option (List Match))) :
    Except String (Option (List TeamMatch)) :=
  match fetch with
  | Except.error e => Except.error e
  | Except.ok none => Except.error "TypeError"
  | Except.ok (some fetched) =>
    Except.ok (some (fetched.map (fun m => TeamMatch.mk m (set_teams m.members))))

/-- One iteration of the `while True` loop of `Engine.run`, starting from
the baseline snapshot `prev`: call `get_lastmatches` (an exception
propagates out of the loop, modelled as `Except.error`); if it returned
`None`, log and continue with the baseline unchanged; otherwise run
`check_results` (an uncaught `webhook.send` exception likewise aborts) and
make the fetched snapshot the new baseline.  The `ok` value is the next
baseline together with the dispatches made this tick. -/
def run_tick (send : TeamMatch → Bool) (players : List ConfigPlayer)
    (prev : List TeamMatch) (fetch : Except String (Option (List Match))) :
    Except String (List TeamMatch × List (String × TeamMatch)) :=
  match get_lastmatches fetch with
  | Except.error e => Except.error e
  | Except.ok none => Except.ok (prev, [])
  | Except.ok (some newMatches) =>
    let r := check_results send players prev newMatches
    match r.2 with
    | some _ => Except.error "webhook.send raised"
    | none => Except.ok (newMatches, r.1)

/-! Concrete inputs used by witnesses and counterexamples. -/

/-- A roster member profile used in concrete scenarios. -/
def wAlice : Member := Member.mk (Profile.mk 7 "alice" none) 1000 1 0 "a"

/-- A second roster member (defeated) used in concrete scenarios. -/
def wBob : Member := Member.mk (Profile.mk 8 "bob" none) 950 0 0 "b"

/-- An opponent who is not on the roster. -/
def wCarl : Member := Member.mk (Profile.mk 99 "carl" none) 900 0 1 "c"

/-- A second opponent who is not on the roster. -/
def wDora : Member := Member.mk (Profile.mk 98 "dora" none) 900 1 1 "d"

/-- A member with team id `-1`. -/
def negOne1 : Member := Member.mk (Profile.mk 11 "nat" none) 800 0 (-1) "n1"

/-- Another member with team id `-1`. -/
def negOne2 : Member := Member.mk (Profile.mk 12 "omar" none) 800 0 (-1) "n2"

/-- A one-entry roster containing only Alice. -/
def clanA : List ConfigPlayer := [ConfigPlayer.mk "alice" 1001 7]

/-- A two-entry roster containing Alice and Bob. -/
def clanAB : List ConfigPlayer :=
  [ConfigPlayer.mk "alice" 1001 7, ConfigPlayer.mk "bob" 1002 8]

/-- A finished two-team match in which roster member Alice beat Carl. -/
def tmVictory : TeamMatch :=
  TeamMatch.mk (Match.mk 42 6 "arabia.rms" "http://insights/42" [wAlice, wCarl])
    [Team.mk [wAlice] 0, Team.mk [wCarl] 1]

/-- Alice with outcome 0, for the defeat scenario. -/
def wAlice2 : Member := Member.mk (Profile.mk 7 "alice" none) 1000 0 0 "a"

/-- A finished two-team match in which Alice and Bob lost to Carl and
Dora. -/
def tmDefeat : TeamMatch :=
  TeamMatch.mk
    (Match.mk 43 7 "nomad.rms" "http://insights/43" [wAlice2, wBob, wCarl, wDora])
    [Team.mk [wAlice2, wBob] 0, Team.mk [wCarl, wDora] 1]

/-- A three-team match (a free-for-all among strangers). -/
def tmThree : TeamMatch :=
  TeamMatch.mk (Match.mk 44 0 "gold_rush.rms" "http://insights/44" [wCarl, wDora])
    [Team.mk [wCarl] 1, Team.mk [wDora] 2, Team.mk [negOne1] (-1)]

/-- A two-team match none of whose members is on the roster. -/
def tmStrangers : TeamMatch :=
  TeamMatch.mk (Match.mk 45 6 "islands.rms" "http://insights/45" [wCarl, wDora])
    [Team.mk [wCarl] 1, Team.mk [wDora] 2]

/-- A team match with match id 1 (diffing scenarios). -/
def cTmA : TeamMatch := TeamMatch.mk (Match.mk 1 6 "arabia.rms" "http://i1" []) []

/-- A team match carrying the same match id 1 but different data. -/
def cTmA2 : TeamMatch := TeamMatch.mk (Match.mk 1 9 "nomad.rms" "http://i1b" []) []

/-- A team match with match id 2. -/
def cTmB : TeamMatch := TeamMatch.mk (Match.mk 2 6 "arabia.rms" "http://i2" []) []

/-- A webhook dispatch that always succeeds. -/
def sendOk : TeamMatch → Bool := fun _ => true

/-- A webhook dispatch that raises exactly on match id 1. -/
def sendFail1 : TeamMatch → Bool := fun t => !(t.mtch.id == 1)

/-- A probe for which only the URL `"b"` is reachable (status 200); every
other URL raises a `RequestException`. -/
def probeOnlyB : String → ProbeResult :=
  fun s => if s == "b" then ProbeResult.status 200 else ProbeResult.error

/-- A probe that answers every URL with HTTP status 204 (a 2xx success
that is not 200). -/
def probe204 : String → ProbeResult := fun _ => ProbeResult.status 204

/-- A member whose replay link is the non-empty URL `"u"`. -/
def wmU : Member := Member.mk (Profile.mk 50 "ulf" none) 700 0 0 "u"

/-! Claim theorems. -/

/-- C1: the lookup-table classification behaves as claimed on every id
except 0: ranked ids are ranked, ids absent from the table (positive,
negative or out of range) are not ranked and raise nothing — but for
match-type id 0 the code returns `true`, because the Python test
`'ranked' in 'unranked'` succeeds on the substring, although the table
itself names id 0 `Unranked` and the claim requires `false` there. -/
theorem C1_ranked_zero_bug :
    is_ranked_game 0 = true ∧
    is_ranked_game 2 = true ∧ is_ranked_game 6 = true ∧
    is_ranked_game 9 = true ∧ is_ranked_game 29 = true ∧
    is_ranked_game 120 = true ∧ is_ranked_game 121 = true ∧
    is_ranked_game 1 = false ∧ is_ranked_game 122 = false ∧
    is_ranked_game (-5) = false := by decide

/-- C2: evaluating `check_results` on a tick with two genuinely new
matches, where dispatching the first raises, shows the failure is not
caught: the exception aborts the loop (`some cTmA`) and the second new
match is never classified, formatted or dispatched — contradicting the
claim that a dispatch failure is caught per match and the remaining
matches still processed. -/
theorem C2_dispatch_abort_bug :
    (check_results sendFail1 clanA [] [cTmA, cTmB]).2 = some cTmA ∧
    (check_results sendFail1 clanA [] [cTmA, cTmB]).1.map Prod.snd = [cTmA] ∧
    cTmB ∉ (check_results sendFail1 clanA [] [cTmA, cTmB]).1.map Prod.snd := by
  decide

/-- C9: evaluating one running tick under both manifestations of a
snapshot-fetch failure (the client raises; the client returns `None`, on
which `get_lastmatches` raises a `TypeError` while iterating) shows the
tick aborts with the propagated exception instead of logging, keeping the
baseline and continuing — the `if new is None: continue` branch of
`Engine.run` is unreachable because `get_lastmatches` never returns
`None`. -/
theorem C9_fetch_failure_bug :
    run_tick sendOk clanA [cTmA] (Except.error "RequestException") =
      Except.error "RequestException" ∧
    run_tick sendOk clanA [cTmA] (Except.ok none) = Except.error "TypeError" :=
  ⟨rfl, rfl⟩

/-- C3 fails as stated: a candidate whose probe answers with HTTP 204 — a
2xx success status, on a non-empty replay URL — is not accepted by the
code, which tests `status_code == 200` exactly, so the resolver returns no
link although the claim requires this first successful candidate to win. -/
theorem C3_counterexample :
    probe204 wmU.replay_link = ProbeResult.status 204 ∧
    (200 ≤ 204 ∧ 204 < 300) ∧ wmU.replay_link ≠ "" ∧
    set_record_link probe204 [wmU] = none := by decide

/-- When the first `k` probes all miss (any status other than 200, or an
error) and the probe of the member at index `k` returns status 200, the
`set_record_link` loop stops there: the `link` variable holds that
member's URL and exactly the first `k + 1` members were probed. -/
theorem record_link_loop_hit (probe : String → ProbeResult) :
    ∀ (members : List Member) (k : Nat) (hk : k < members.length),
    (∀ mb ∈ members.take k, probe mb.replay_link ≠ ProbeResult.status 200) →
    probe ((members.get ⟨k, hk⟩).replay_link) = ProbeResult.status 200 →
    record_link_loop probe members =
      ((members.get ⟨k, hk⟩).replay_link,
        (members.take (k + 1)).map (fun mb => mb.replay_link)) := by
  intro members
  induction members with
  | nil => intro k hk; exact absurd hk (Nat.not_lt_zero k)
  | cons mb rest ih =>
    intro k hk hpre hhit
    cases k with
    | zero =>
      simp only [List.get] at hhit
      simp [record_link_loop, hhit]
    | succ k =>
      have hmb : probe mb.replay_link ≠ ProbeResult.status 200 := by
        apply hpre
        simp [List.take_succ_cons]
      have hpre2 : ∀ m2 ∈ rest.take k, probe m2.replay_link ≠ ProbeResult.status 200 := by
        intro m2 hm2
        apply hpre
        simp [List.take_succ_cons, hm2]
      have hk2 : k < rest.length := Nat.lt_of_succ_lt_succ (by simpa using hk)
      have hhit2 : probe ((rest.get ⟨k, hk2⟩).replay_link) = ProbeResult.status 200 := by
        simpa using hhit
      have ihr := ih k hk2 hpre2 hhit2
      cases hp : probe mb.replay_link with
      | status c =>
        have hc : (c == 200) = false := by
          simp only [beq_eq_false_iff_ne]
          intro hceq
          exact hmb (by rw [hp, hceq])
        simp [record_link_loop, hp, hc, ihr, List.take_succ_cons]
      | error =>
        simp [record_link_loop, hp, ihr, List.take_succ_cons]

/-- When no probe returns status 200 the `link` variable stays empty. -/
theorem record_link_loop_miss (probe : String → ProbeResult) :
    ∀ members : List Member,
    (∀ mb ∈ members, probe mb.replay_link ≠ ProbeResult.status 200) →
    (record_link_loop probe members).1 = "" := by
  intro members
  induction members with
  | nil => intro h; rfl
  | cons mb rest ih =>
    intro h
    have hmb : probe mb.replay_link ≠ ProbeResult.status 200 :=
      h mb (List.mem_cons_self mb rest)
    have ihr := ih (fun m2 hm2 => h m2 (List.mem_cons_of_mem mb hm2))
    cases hp : probe mb.replay_link with
    | status c =>
      have hc : (c == 200) = false := by
        simp only [beq_eq_false_iff_ne]
        intro hceq
        exact hmb (by rw [hp, hceq])
      simp [record_link_loop, hp, hc, ihr]
    | error => simp [record_link_loop, hp, ihr]

/-- C3 (amended): the resolver probes candidates strictly in input order,
issuing one probe per member regardless of whether its replay URL is
empty; a probe succeeds exactly when its status is 200 (other 2xx codes
and errors are tried past); the first member whose probe returns 200 wins,
no member after it is probed, and the formatted download line for its URL
is returned (unless that URL is the empty string, which the truthiness
check maps to no link); if no probe returns 200 the result is no link,
with no error raised. -/
theorem C3_resolver_amended :
    (∀ (probe : String → ProbeResult) (members : List Member) (k : Nat)
       (hk : k < members.length),
       (∀ mb ∈ members.take k, probe mb.replay_link ≠ ProbeResult.status 200) →
       probe ((members.get ⟨k, hk⟩).replay_link) = ProbeResult.status 200 →
       ((record_link_loop probe members).2 =
          (members.take (k + 1)).map (fun mb => mb.replay_link) ∧
        (record_link_loop probe members).1 = (members.get ⟨k, hk⟩).replay_link ∧
        ((members.get ⟨k, hk⟩).replay_link ≠ "" →
          set_record_link probe members =
            some ("▸ **[Download replay](" ++
              (members.get ⟨k, hk⟩).replay_link ++ ")**")))) ∧
    (∀ (probe : String → ProbeResult) (members : List Member),
       (∀ mb ∈ members, probe mb.replay_link ≠ ProbeResult.status 200) →
       set_record_link probe members = none) := by
  constructor
  · intro probe members k hk hpre hhit
    have hloop := record_link_loop_hit probe members k hk hpre hhit
    refine ⟨by rw [hloop], by rw [hloop], ?_⟩
    intro hne
    have hbeq : ((members.get ⟨k, hk⟩).replay_link == "") = false := by
      simpa only [beq_eq_false_iff_ne] using hne
    simp [set_record_link, hloop, hbeq]
    simpa using hne
  · intro probe members hmiss
    have hloop := record_link_loop_miss probe members hmiss
    simp [set_record_link, hloop]

/-- C3 witness: with candidates `"a"` (probe raises) and `"b"`
(status 200), the resolver probes both in order, returns the download line
for `"b"` and the probe trace is exactly `["a", "b"]`. -/
theorem C3_resolver_witness :
    set_record_link probeOnlyB [wAlice, wBob] =
      some "▸ **[Download replay](b)**" ∧
    (record_link_loop probeOnlyB [wAlice, wBob]).2 = ["a", "b"] := by
  have h := C3_resolver_amended.1 probeOnlyB [wAlice, wBob] 1 (by decide)
    (by decide) (by decide)
  exact ⟨(h.2.2 (by decide)).trans (by decide), h.1.trans (by decide)⟩

/-! Lemmas about the `set_teams` grouping loop. -/

/-- Appending a member to a matching team never changes the team number. -/
theorem appendIfMatch_number (m : Member) (t : Team) :
    (appendIfMatch m t).number = t.number := by
  unfold appendIfMatch
  split <;> rfl

/-- A team failing the membership test is left untouched. -/
theorem appendIfMatch_of_false (m : Member) (t : Team)
    (h : memberMatches m t = false) : appendIfMatch m t = t := by
  simp [appendIfMatch, h]

/-- A function that fixes every element of a list maps it to itself. -/
theorem list_map_id_of {α : Type} (f : α → α) :
    ∀ l : List α, (∀ a ∈ l, f a = a) → l.map f = l := by
  intro l
  induction l with
  | nil => intro _; rfl
  | cons a as ih =>
    intro h
    simp only [List.map_cons]
    rw [h a (List.mem_cons_self a as), ih (fun b hb => h b (List.mem_cons_of_mem a hb))]

/-- `countP` is unchanged by a map under which the predicate is invariant. -/
theorem countP_map_pres {α : Type} (p : α → Bool) (f : α → α)
    (h : ∀ a, p (f a) = p a) :
    ∀ l : List α, (l.map f).countP p = l.countP p := by
  intro l
  induction l with
  | nil => rfl
  | cons a as ih => simp [List.countP_cons, h, ih]

/-- If no team passes the membership test, `addMember` appends a fresh
singleton team. -/
theorem addMember_of_any_false (teams : List Team) (m : Member)
    (h : teams.any (memberMatches m) = false) :
    addMember teams m = teams ++ [Team.mk [m] m.teamid] := by
  have hall : ∀ t ∈ teams, memberMatches m t = false := by
    intro t ht
    cases hmt : memberMatches m t with
    | false => rfl
    | true => exact absurd (List.any_eq_true.mpr ⟨t, ht, hmt⟩) (by rw [h]; simp)
  have hmap : teams.map (appendIfMatch m) = teams :=
    list_map_id_of (appendIfMatch m) teams
      (fun t ht => appendIfMatch_of_false m t (hall t ht))
  simp [addMember, h, hmap]

/-- If some team passes the membership test, `addMember` just maps the
append over the teams. -/
theorem addMember_of_any_true (teams : List Team) (m : Member)
    (h : teams.any (memberMatches m) = true) :
    addMember teams m = teams.map (appendIfMatch m) := by
  simp [addMember, h]

/-- The membership test only depends on the member's team id. -/
theorem memberMatches_congr (m1 m2 : Member) (t : Team)
    (h : m1.teamid = m2.teamid) : memberMatches m1 t = memberMatches m2 t := by
  simp [memberMatches, h]

/-- A predicate that `any` refutes is false on every element. -/
theorem any_false_all {α : Type} (p : α → Bool) (l : List α)
    (h : l.any p = false) : ∀ a ∈ l, p a = false := by
  intro a ha
  cases hp : p a with
  | false => rfl
  | true => exact absurd (List.any_eq_true.mpr ⟨a, ha, hp⟩) (by rw [h]; simp)

/-- `countP` respects pointwise-equal predicates. -/
theorem countP_congr_own {α : Type} (p q : α → Bool) :
    ∀ l : List α, (∀ a ∈ l, p a = q a) → l.countP p = l.countP q := by
  intro l
  induction l with
  | nil => intro _; rfl
  | cons a as ih =>
    intro h
    rw [List.countP_cons, List.countP_cons, h a (List.mem_cons_self a as),
      ih (fun b hb => h b (List.mem_cons_of_mem a hb))]

/-- The membership test is invariant under `appendIfMatch`. -/
theorem memberMatches_appendIfMatch (m m2 : Member) (t : Team) :
    memberMatches m2 (appendIfMatch m t) = memberMatches m2 t := by
  simp [memberMatches, appendIfMatch_number]

/-- In the found case (exactly one team passes the test), mapping the
append over the teams moves the member's single copy into the flattened
member list. -/
theorem flatMap_map_append (m : Member) :
    ∀ l : List Team, l.countP (memberMatches m) = 1 →
    ((l.map (appendIfMatch m)).flatMap Team.members).Perm
      (l.flatMap Team.members ++ [m]) := by
  intro l
  induction l with
  | nil => intro h; simp at h
  | cons t ts ih =>
    intro h
    rw [List.countP_cons] at h
    cases hmt : memberMatches m t with
    | true =>
      have hts : ts.countP (memberMatches m) = 0 := by
        rw [hmt] at h; simpa using h
      have hall : ∀ t2 ∈ ts, memberMatches m t2 = false := by
        intro t2 ht2
        cases hm2 : memberMatches m t2 with
        | false => rfl
        | true =>
          have := List.countP_pos.mpr ⟨t2, ht2, hm2⟩
          omega
      have hmap : ts.map (appendIfMatch m) = ts :=
        list_map_id_of _ _ (fun t2 ht2 => appendIfMatch_of_false m t2 (hall t2 ht2))
      simp only [List.map_cons, List.flatMap_cons, hmap, appendIfMatch, hmt,
        if_true, List.append_assoc]
      exact List.Perm.append_left _ List.perm_append_comm
    | false =>
      have hts : ts.countP (memberMatches m) = 1 := by
        rw [hmt] at h; simpa using h
      have ihr := ih hts
      simp only [List.map_cons, List.flatMap_cons,
        appendIfMatch_of_false m t hmt, List.append_assoc]
      exact List.Perm.append_left _ ihr

/-- One `addMember` step adds exactly the new member to the flattened
member list (up to order), provided non-negative numbers are unique. -/
theorem addMember_flatMap_perm (teams : List Team) (m : Member)
    (hinv : TeamsInv teams) :
    ((addMember teams m).flatMap Team.members).Perm
      (teams.flatMap Team.members ++ [m]) := by
  cases hfound : teams.any (memberMatches m) with
  | false =>
    rw [addMember_of_any_false teams m hfound]
    simp
  | true =>
    rw [addMember_of_any_true teams m hfound]
    apply flatMap_map_append
    obtain ⟨t0, ht0, hm0⟩ := List.any_eq_true.mp hfound
    have h1 : 0 < teams.countP (memberMatches m) :=
      List.countP_pos.mpr ⟨t0, ht0, hm0⟩
    have h2 := hinv m
    omega

/-- One `addMember` step preserves the uniqueness invariant. -/
theorem TeamsInv_addMember (teams : List Team) (m : Member)
    (hinv : TeamsInv teams) : TeamsInv (addMember teams m) := by
  intro m2
  cases hfound : teams.any (memberMatches m) with
  | true =>
    rw [addMember_of_any_true teams m hfound]
    rw [countP_map_pres (memberMatches m2) (appendIfMatch m)
      (fun t => memberMatches_appendIfMatch m m2 t)]
    exact hinv m2
  | false =>
    rw [addMember_of_any_false teams m hfound, List.countP_append]
    cases hm2 : memberMatches m2 (Team.mk [m] m.teamid) with
    | false =>
      have h0 := hinv m2
      simp [List.countP_cons, hm2]
      omega
    | true =>
      have hm2p : -1 < m2.teamid ∧ m.teamid = m2.teamid := by
        simpa [memberMatches] using hm2
      have hpt : ∀ t ∈ teams, memberMatches m2 t = memberMatches m t :=
        fun t _ => memberMatches_congr m2 m t hm2p.2.symm
      have hz : teams.countP (memberMatches m2) = 0 := by
        rw [countP_congr_own _ _ teams hpt]
        exact List.countP_eq_zero.mpr
          (fun t ht => by rw [any_false_all _ teams hfound t ht]; simp)
      simp [List.countP_cons, hm2, hz]

/-- The whole grouping loop: the invariant is maintained and the flattened
member list of the built teams is the processed members (up to order). -/
theorem foldl_addMember_inv_perm :
    ∀ (ms : List Member) (teams : List Team), TeamsInv teams →
    TeamsInv (ms.foldl addMember teams) ∧
    ((ms.foldl addMember teams).flatMap Team.members).Perm
      (teams.flatMap Team.members ++ ms) := by
  intro ms
  induction ms with
  | nil => intro teams h; exact ⟨h, by simp⟩
  | cons m ms ih =>
    intro teams h
    have hstep := TeamsInv_addMember teams m h
    obtain ⟨h1, h2⟩ := ih (addMember teams m) hstep
    refine ⟨h1, ?_⟩
    rw [List.foldl_cons]
    have h3 := (addMember_flatMap_perm teams m h).append_right ms
    have h4 : (teams.flatMap Team.members ++ [m]) ++ ms =
        teams.flatMap Team.members ++ (m :: ms) := by simp
    exact h2.trans (h4 ▸ h3)

/-- `MemProp` for an already-placed member survives one `addMember` step. -/
theorem MemProp_addMember_pres (teams : List Team) (m mp : Member)
    (h : MemProp teams mp) : MemProp (addMember teams m) mp := by
  intro hge
  obtain ⟨⟨t0, ht0, hn0⟩, hall⟩ := h hge
  cases hfound : teams.any (memberMatches m) with
  | true =>
    rw [addMember_of_any_true teams m hfound]
    constructor
    · exact ⟨appendIfMatch m t0, List.mem_map_of_mem _ ht0,
        by rw [appendIfMatch_number]; exact hn0⟩
    · intro t2 ht2 hn2
      obtain ⟨t1, ht1, rfl⟩ := List.mem_map.mp ht2
      rw [appendIfMatch_number] at hn2
      have hm := hall t1 ht1 hn2
      unfold appendIfMatch
      split
      · exact List.mem_append_left _ hm
      · exact hm
  | false =>
    rw [addMember_of_any_false teams m hfound]
    constructor
    · exact ⟨t0, List.mem_append_left _ ht0, hn0⟩
    · intro t2 ht2 hn2
      rcases List.mem_append.mp ht2 with h2 | h2
      · exact hall t2 h2 hn2
      · exfalso
        have ht2e : t2 = Team.mk [m] m.teamid := by simpa using h2
        subst ht2e
        have hne : m.teamid = mp.teamid := hn2
        have hmatch : memberMatches m t0 = true := by
          simp [memberMatches, hn0, hne]
          omega
        exact absurd (List.any_eq_true.mpr ⟨t0, ht0, hmatch⟩)
          (by rw [hfound]; simp)

/-- After its own `addMember` step, the new member satisfies `MemProp`. -/
theorem MemProp_addMember_self (teams : List Team) (m : Member) :
    MemProp (addMember teams m) m := by
  intro hge
  have hpos : -1 < m.teamid := by omega
  cases hfound : teams.any (memberMatches m) with
  | true =>
    rw [addMember_of_any_true teams m hfound]
    obtain ⟨t0, ht0, hm0⟩ := List.any_eq_true.mp hfound
    have hn0 : t0.number = m.teamid := by
      have := hm0
      simp [memberMatches] at this
      exact this.2
    constructor
    · exact ⟨appendIfMatch m t0, List.mem_map_of_mem _ ht0,
        by rw [appendIfMatch_number]; exact hn0⟩
    · intro t2 ht2 hn2
      obtain ⟨t1, ht1, rfl⟩ := List.mem_map.mp ht2
      rw [appendIfMatch_number] at hn2
      have hm1 : memberMatches m t1 = true := by
        simp [memberMatches, hn2, hpos]
      simp [appendIfMatch, hm1]
  | false =>
    rw [addMember_of_any_false teams m hfound]
    constructor
    · exact ⟨Team.mk [m] m.teamid, by simp, rfl⟩
    · intro t2 ht2 hn2
      rcases List.mem_append.mp ht2 with h2 | h2
      · exfalso
        have hmatch : memberMatches m t2 = true := by
          simp [memberMatches, hn2, hpos]
        exact absurd (List.any_eq_true.mpr ⟨t2, h2, hmatch⟩)
          (by rw [hfound]; simp)
      · have ht2e : t2 = Team.mk [m] m.teamid := by simpa using h2
        subst ht2e
        simp

/-- `MemProp` survives the whole rest of the grouping loop. -/
theorem MemProp_foldl_pres :
    ∀ (ms : List Member) (teams : List Team) (mp : Member),
    MemProp teams mp → MemProp (ms.foldl addMember teams) mp := by
  intro ms
  induction ms with
  | nil => intro teams mp h; exact h
  | cons m ms ih =>
    intro teams mp h
    rw [List.foldl_cons]
    exact ih (addMember teams m) mp (MemProp_addMember_pres teams m mp h)

/-- Every processed member satisfies `MemProp` of the final team list. -/
theorem MemProp_foldl_mem :
    ∀ (ms : List Member) (teams : List Team) (m : Member),
    m ∈ ms → MemProp (ms.foldl addMember teams) m := by
  intro ms
  induction ms with
  | nil => intro teams m h; exact absurd h (List.not_mem_nil m)
  | cons m0 ms ih =>
    intro teams m h
    rw [List.foldl_cons]
    rcases List.mem_cons.mp h with h1 | h1
    · subst h1
      exact MemProp_foldl_pres ms (addMember teams m) m
        (MemProp_addMember_self teams m)
    · exact ih (addMember teams m0) m h1

/-- One `addMember` step preserves the negative-singleton property. -/
theorem NegSing_addMember (teams : List Team) (m : Member)
    (h : NegSing teams) : NegSing (addMember teams m) := by
  cases hfound : teams.any (memberMatches m) with
  | true =>
    rw [addMember_of_any_true teams m hfound]
    intro t2 ht2 mp hmp hneg
    obtain ⟨t1, ht1, rfl⟩ := List.mem_map.mp ht2
    cases hm1 : memberMatches m t1 with
    | false =>
      rw [appendIfMatch_of_false m t1 hm1] at hmp ⊢
      exact h t1 ht1 mp hmp hneg
    | true =>
      exfalso
      have hm1p : -1 < m.teamid ∧ t1.number = m.teamid := by
        simpa [memberMatches] using hm1
      rw [appendIfMatch, hm1] at hmp
      simp at hmp
      rcases hmp with hmp | hmp
      · have := (h t1 ht1 mp hmp hneg).2
        omega
      · subst hmp
        omega
  | false =>
    rw [addMember_of_any_false teams m hfound]
    intro t2 ht2 mp hmp hneg
    rcases List.mem_append.mp ht2 with h2 | h2
    · exact h t2 h2 mp hmp hneg
    · have ht2e : t2 = Team.mk [m] m.teamid := by simpa using h2
      subst ht2e
      have hmpe : mp = m := by simpa using hmp
      subst hmpe
      exact ⟨rfl, rfl⟩

/-- The whole grouping loop preserves the negative-singleton property. -/
theorem NegSing_foldl :
    ∀ (ms : List Member) (teams : List Team),
    NegSing teams → NegSing (ms.foldl addMember teams) := by
  intro ms
  induction ms with
  | nil => intro teams h; exact h
  | cons m ms ih =>
    intro teams h
    rw [List.foldl_cons]
    exact ih (addMember teams m) (NegSing_addMember teams m h)

/-- Filtering commutes with a map that is invariant for the predicate and
fixes the kept elements. -/
theorem filter_map_pres {α : Type} (p : α → Bool) (f : α → α)
    (h1 : ∀ a, p (f a) = p a) (h2 : ∀ a, p a = true → f a = a) :
    ∀ l : List α, (l.map f).filter p = l.filter p := by
  intro l
  induction l with
  | nil => rfl
  | cons a as ih =>
    simp only [List.map_cons, List.filter_cons, h1 a]
    cases hp : p a with
    | false => simpa using ih
    | true => rw [h2 a hp]; simpa using ih

/-- Through the whole grouping loop, the negative-numbered teams are
exactly the singleton teams of the negative-id members, in processing
order. -/
theorem foldl_negfilter :
    ∀ (ms : List Member) (teams : List Team),
    (ms.foldl addMember teams).filter (fun t => decide (t.number < 0)) =
      teams.filter (fun t => decide (t.number < 0)) ++
        (ms.filter (fun mb => decide (mb.teamid < 0))).map
          (fun mb => Team.mk [mb] mb.teamid) := by
  intro ms
  induction ms with
  | nil => intro teams; simp
  | cons m ms ih =>
    intro teams
    rw [List.foldl_cons, ih (addMember teams m)]
    by_cases hneg : m.teamid < 0
    · have hallf : ∀ t ∈ teams, memberMatches m t = false := by
        intro t _
        have : decide (-1 < m.teamid) = false := by simp; omega
        simp [memberMatches, this]
      have hfound : teams.any (memberMatches m) = false := by
        cases hany : teams.any (memberMatches m) with
        | false => rfl
        | true =>
          obtain ⟨t0, ht0, hm0⟩ := List.any_eq_true.mp hany
          rw [hallf t0 ht0] at hm0
          exact absurd hm0 (by simp)
      rw [addMember_of_any_false teams m hfound, List.filter_append]
      have hnew : (fun t => decide (t.number < 0)) (Team.mk [m] m.teamid) = true := by
        simpa using hneg
      simp [List.filter_cons, hnew, hneg]
    · have hkeep : ∀ t, decide (t.number < 0) = true → appendIfMatch m t = t := by
        intro t ht
        have htn : t.number < 0 := by simpa using ht
        have hbeq : (t.number == m.teamid) = false := by
          rw [beq_eq_false_iff_ne]
          omega
        exact appendIfMatch_of_false m t (by simp [memberMatches, hbeq])
      cases hfound : teams.any (memberMatches m) with
      | true =>
        rw [addMember_of_any_true teams m hfound]
        rw [filter_map_pres (fun t => decide (t.number < 0)) (appendIfMatch m)
          (fun t => by simp [appendIfMatch_number]) hkeep teams]
        simp [List.filter_cons, hneg]
      | false =>
        rw [addMember_of_any_false teams m hfound, List.filter_append]
        have hnew : (fun t => decide (t.number < 0)) (Team.mk [m] m.teamid) = false := by
          simpa using hneg
        simp [List.filter_cons, hnew, hneg]

/-- C8: every input member appears in exactly one produced team exactly
once (the flattened member lists of `set_teams` are a permutation of the
input), and any two members sharing a non-negative team id land in one
common team. -/
theorem C8_partition (ms : List Member) :
    (((set_teams ms).flatMap Team.members).Perm ms) ∧
    (∀ m1 ∈ ms, ∀ m2 ∈ ms, m1.teamid = m2.teamid → 0 ≤ m1.teamid →
      ∃ t ∈ set_teams ms, m1 ∈ t.members ∧ m2 ∈ t.members) := by
  have hinv0 : TeamsInv ([] : List Team) := fun m => by simp
  have hsort : (set_teams ms).Perm (build_teams ms) :=
    List.perm_insertionSort teamLE _
  constructor
  · have hperm := (foldl_addMember_inv_perm ms [] hinv0).2
    have hflat := hsort.flatMap_right Team.members
    refine hflat.trans (hperm.trans ?_)
    simp [build_teams]
  · intro m1 h1 m2 h2 heq hge
    have hp1 := MemProp_foldl_mem ms [] m1 h1
    have hp2 := MemProp_foldl_mem ms [] m2 h2
    obtain ⟨⟨t0, ht0, hn0⟩, hall1⟩ := hp1 hge
    obtain ⟨_, hall2⟩ := hp2 (heq ▸ hge)
    exact ⟨t0, hsort.mem_iff.mpr ht0, hall1 t0 ht0 hn0,
      hall2 t0 ht0 (by rw [hn0, heq])⟩

/-- C8 witness: two members sharing team id 0 end up in one common team,
and the produced teams partition the input. -/
theorem C8_partition_witness :
    (((set_teams [wAlice, wBob]).flatMap Team.members).Perm [wAlice, wBob]) ∧
    (∃ t ∈ set_teams [wAlice, wBob], wAlice ∈ t.members ∧ wBob ∈ t.members) :=
  ⟨(C8_partition [wAlice, wBob]).1,
   (C8_partition [wAlice, wBob]).2 wAlice (by decide) wBob (by decide) rfl
     (by decide)⟩

/-- C4 fails as stated: with two members of team id `-1` the produced team
list is `[-1, -1]` by team number, which is not *strictly* ascending. -/
theorem C4_counterexample :
    ¬ List.Pairwise (fun a b : Team => a.number < b.number)
      (set_teams [negOne1, negOne2]) := by decide

/-- C4 (amended): two members with team id `-1` each form distinct
singleton teams — the negative-numbered teams of `set_teams` are exactly
the singletons of the negative-id members, and negative-id members are
never merged into any other team — and the team list is sorted ascending
by team number, non-strictly: ties occur exactly among the negative
singleton teams that share a number. -/
theorem C4_teams_amended (ms : List Member) :
    (((set_teams ms).filter (fun t => decide (t.number < 0))).Perm
       ((ms.filter (fun mb => decide (mb.teamid < 0))).map
         (fun mb => Team.mk [mb] mb.teamid))) ∧
    List.Sorted teamLE (set_teams ms) ∧
    (∀ t ∈ set_teams ms, ∀ mb ∈ t.members, mb.teamid < 0 →
      t.members = [mb] ∧ t.number = mb.teamid) := by
  have hsort : (set_teams ms).Perm (build_teams ms) :=
    List.perm_insertionSort teamLE _
  refine ⟨?_, List.sorted_insertionSort teamLE _, ?_⟩
  · have hfil := hsort.filter (fun t => decide (t.number < 0))
    have hfold := foldl_negfilter ms []
    refine hfil.trans ?_
    have hb : build_teams ms = ms.foldl addMember [] := rfl
    rw [hb, hfold]
    simp
  · intro t ht mb hmb hneg
    have hns := NegSing_foldl ms []
      (fun t2 ht2 => absurd ht2 (List.not_mem_nil t2))
    exact hns t (hsort.mem_iff.mp ht) mb hmb hneg

/-- C4 witness: on two `-1` members the produced list is sorted (weakly)
and the team holding the first member is its singleton keyed by `-1`. -/
theorem C4_teams_witness :
    List.Sorted teamLE (set_teams [negOne1, negOne2]) ∧
    ((Team.mk [negOne1] (-1)).members = [negOne1] ∧
     (Team.mk [negOne1] (-1)).number = negOne1.teamid) :=
  ⟨(C4_teams_amended [negOne1, negOne2]).2.1,
   (C4_teams_amended [negOne1, negOne2]).2.2 (Team.mk [negOne1] (-1))
     (by decide) negOne1 (by decide) (by decide)⟩

/-- When every match of the tick is already present in the baseline by
match id, `check_results` sends nothing and completes. -/
theorem check_results_all_found (send : TeamMatch → Bool)
    (players : List ConfigPlayer) (prev : List TeamMatch) :
    ∀ newl : List TeamMatch,
    (∀ q ∈ newl, ∃ p ∈ prev, p.mtch.id = q.mtch.id) →
    check_results send players prev newl = ([], none) := by
  intro newl
  induction newl with
  | nil => intro _; rfl
  | cons q rest ih =>
    intro h
    obtain ⟨p0, hp0, hid⟩ := h q (List.mem_cons_self q rest)
    have hfe : (prev.filter (fun p => p.mtch.id == q.mtch.id)).isEmpty = false := by
      have hmem : p0 ∈ prev.filter (fun p => p.mtch.id == q.mtch.id) :=
        List.mem_filter.mpr ⟨hp0, by simpa using hid⟩
      cases hfil : prev.filter (fun p => p.mtch.id == q.mtch.id) with
      | nil => rw [hfil] at hmem; exact absurd hmem (List.not_mem_nil p0)
      | cons a as => rfl
    simp only [check_results, hfe, Bool.false_eq_true, if_false]
    exact ih (fun q2 hq2 => h q2 (List.mem_cons_of_mem q hq2))

/-- C5: a tick whose fetched snapshot is identical to the baseline makes
zero dispatch calls and completes; more generally a match whose id occurs
in the baseline is never dispatched (it appears in no dispatch-call list
and never aborts the tick), whatever else the new snapshot holds. -/
theorem C5_diff_idempotent (send : TeamMatch → Bool)
    (players : List ConfigPlayer) (prev new : List TeamMatch) (n : TeamMatch) :
    check_results send players prev prev = ([], none) ∧
    ((∃ p ∈ prev, p.mtch.id = n.mtch.id) →
      (∀ x ∈ (check_results send players prev new).1, x.2 ≠ n) ∧
      (check_results send players prev new).2 ≠ some n) := by
  constructor
  · exact check_results_all_found send players prev prev (fun q hq => ⟨q, hq, rfl⟩)
  · intro hex
    induction new with
    | nil =>
      exact ⟨fun x hx => absurd hx (List.not_mem_nil x), by simp [check_results]⟩
    | cons q rest ih =>
      cases hfe : (prev.filter (fun p => p.mtch.id == q.mtch.id)).isEmpty with
      | false =>
        simp only [check_results, hfe, Bool.false_eq_true, if_false]
        exact ih
      | true =>
        have hqn : q ≠ n := by
          intro hqe
          subst hqe
          obtain ⟨p0, hp0, hid⟩ := hex
          have hmem : p0 ∈ prev.filter (fun p => p.mtch.id == q.mtch.id) :=
            List.mem_filter.mpr ⟨hp0, by simpa using hid⟩
          rw [List.isEmpty_iff.mp hfe] at hmem
          exact absurd hmem (List.not_mem_nil p0)
        cases hs : send q with
        | true =>
          simp only [check_results, hfe, if_true, hs]
          refine ⟨?_, ih.2⟩
          intro x hx
          rcases List.mem_cons.mp hx with h1 | h1
          · rw [h1]; exact hqn
          · exact ih.1 x h1
        | false =>
          simp only [check_results, hfe, if_true, hs, Bool.false_eq_true, if_false]
          refine ⟨?_, by simpa using hqn⟩
          intro x hx
          have : x = (formatter_message q players, q) := by simpa using hx
          rw [this]
          exact hqn

/-- C5 witness: re-running a tick on the identical one-match snapshot
dispatches nothing, and a match carrying an already-seen id (with changed
data) is neither dispatched nor the cause of an abort. -/
theorem C5_diff_witness :
    check_results sendOk clanA [cTmA] [cTmA] = ([], none) ∧
    ((∀ x ∈ (check_results sendOk clanA [cTmA] [cTmA2, cTmB]).1, x.2 ≠ cTmA2) ∧
      (check_results sendOk clanA [cTmA] [cTmA2, cTmB]).2 ≠ some cTmA2) :=
  ⟨(C5_diff_idempotent sendOk clanA [cTmA] [cTmA] cTmA).1,
   (C5_diff_idempotent sendOk clanA [cTmA] [cTmA2, cTmB] cTmA2).2
     ⟨cTmA, by decide, by decide⟩⟩

/-- C6: `is_training` holds exactly when the teammate count equals the
member count or the match does not have exactly two teams; in particular a
three-team match is training unconditionally. -/
theorem C6_training_iff (tm : TeamMatch) (clan : List ConfigPlayer) :
    (is_training_game tm.teams (extract_clan_teammates tm clan)
        tm.mtch.members = true ↔
      ((extract_clan_teammates tm clan).length = tm.mtch.members.length ∨
        tm.teams.length ≠ 2)) ∧
    (tm.teams.length = 3 →
      is_training_game tm.teams (extract_clan_teammates tm clan)
        tm.mtch.members = true) := by
  constructor
  · simp [is_training_game]
  · intro h3
    simp [is_training_game, h3]

/-- C6 witness: a concrete three-team match is training. -/
theorem C6_training_witness :
    is_training_game tmThree.teams (extract_clan_teammates tmThree clanA)
      tmThree.mtch.members = true :=
  (C6_training_iff tmThree clanA).2 (by decide)

/-- On a non-training game the clan wins iff some teammate has a positive
outcome. -/
theorem clan_is_winner_false_iff (tms : List Member) :
    clan_is_winner tms false = true ↔ ∃ mb ∈ tms, 0 < mb.outcome := by
  simp [clan_is_winner, List.length_pos, List.filter_eq_nil_iff]

/-- The index-based joining loop of `generate_message` computes the
comma-and-"and" join of the capitalized aliases. -/
theorem header_go_eq :
    ∀ (l : List Member) (k L : Nat), L = k + l.length →
    header_go L k l =
      joinWithAnd (l.map (fun mb => pyCapitalize mb.profile.«alias»)) := by
  intro l
  induction l with
  | nil => intro k L h; rfl
  | cons mb rest ih =>
    intro k L h
    cases rest with
    | nil =>
      have hL : L = k + 1 := by simpa using h
      have h2 : ¬ (k < L - 2) := by omega
      have h1 : ¬ (k < L - 1) := by omega
      simp [header_go, joinWithAnd, h1, h2]
    | cons mb2 rest2 =>
      cases rest2 with
      | nil =>
        have hL : L = k + 2 := by simpa using h
        have h2 : ¬ (k < L - 2) := by omega
        have h1 : k < L - 1 := by omega
        have h4 : ¬ (k + 1 < L - 2) := by omega
        have h3 : ¬ (k + 1 < L - 1) := by omega
        simp [header_go, joinWithAnd, h1, h2, h3, h4, String.append_assoc]
      | cons mb3 rest3 =>
        have hL : L = k + rest3.length + 3 := by simp at h; omega
        have h2 : k < L - 2 := by omega
        have hrec := ih (k + 1) L (by simp; omega)
        conv_lhs => rw [header_go]
        rw [hrec]
        simp [joinWithAnd, h2, String.append_assoc]

/-- The non-training branch of `generate_message`, stated through the
specification's join and phrase selection. -/
theorem generate_message_false_eq (tms : List Member) (v : Bool) :
    generate_message false tms v =
      joinWithAnd (tms.map (fun mb => pyCapitalize mb.profile.«alias»)) ++
        (if v then
          (if 1 < tms.length then " are victorious." else " is victorious.")
        else
          (if 1 < tms.length then " have been defeated."
           else " has been defeated.")) := by
  have hjoin := header_go_eq tms 0 tms.length (by simp)
  cases v <;> by_cases h1 : 1 < tms.length <;>
    simp [generate_message, hjoin, h1, String.append_assoc]

/-- C7: a training match always yields exactly `"Match results."`;
otherwise (for at least one teammate) the header is the teammates'
capitalized aliases joined with commas and a final "and", followed by the
singular phrase (`" is victorious."` / `" has been defeated."`) when there
is exactly one teammate and the plural phrase (`" are victorious."` /
`" have been defeated."`) when there are more, with the victorious form
used iff some teammate has a positive outcome. -/
theorem C7_header (tm : TeamMatch) (clan : List ConfigPlayer) :
    (is_training_game tm.teams (extract_clan_teammates tm clan)
        tm.mtch.members = true →
      formatter_message tm clan = "Match results.") ∧
    (is_training_game tm.teams (extract_clan_teammates tm clan)
        tm.mtch.members = false →
     1 ≤ (extract_clan_teammates tm clan).length →
      formatter_message tm clan =
        joinWithAnd ((extract_clan_teammates tm clan).map
            (fun mb => pyCapitalize mb.profile.«alias»)) ++
          (if ∃ mb ∈ extract_clan_teammates tm clan, 0 < mb.outcome then
            (if (extract_clan_teammates tm clan).length = 1 then
              " is victorious." else " are victorious.")
          else
            (if (extract_clan_teammates tm clan).length = 1 then
              " has been defeated." else " have been defeated."))) := by
  constructor
  · intro htr
    simp [formatter_message, htr, generate_message]
  · intro htr hlen
    have hmsg : formatter_message tm clan =
        generate_message false (extract_clan_teammates tm clan)
          (clan_is_winner (extract_clan_teammates tm clan) false) := by
      simp [formatter_message, htr]
    rw [hmsg, generate_message_false_eq]
    by_cases hex : ∃ mb ∈ extract_clan_teammates tm clan, 0 < mb.outcome
    · have hv : clan_is_winner (extract_clan_teammates tm clan) false = true :=
        (clan_is_winner_false_iff _).mpr hex
      rw [hv]
      by_cases h1 : (extract_clan_teammates tm clan).length = 1
      · have hlt : ¬ 1 < (extract_clan_teammates tm clan).length := by omega
        simp [hex, h1, hlt]
      · have hlt : 1 < (extract_clan_teammates tm clan).length := by omega
        simp [hex, h1, hlt]
    · have hv : clan_is_winner (extract_clan_teammates tm clan) false = false := by
        cases hcv : clan_is_winner (extract_clan_teammates tm clan) false with
        | false => rfl
        | true => exact absurd ((clan_is_winner_false_iff _).mp hcv) hex
      rw [hv]
      by_cases h1 : (extract_clan_teammates tm clan).length = 1
      · have hlt : ¬ 1 < (extract_clan_teammates tm clan).length := by omega
        simp [hex, h1, hlt]
      · have hlt : 1 < (extract_clan_teammates tm clan).length := by omega
        simp [hex, h1, hlt]

/-- C7 witness: the two example scenarios of the specification — a single
victorious teammate gives `"Alice is victorious."` and two defeated
teammates give `"Alice and Bob have been defeated."`. -/
theorem C7_header_witness :
    formatter_message tmVictory clanA = "Alice is victorious." ∧
    formatter_message tmDefeat clanAB = "Alice and Bob have been defeated." :=
  ⟨((C7_header tmVictory clanA).2 (by decide) (by decide)).trans (by decide),
   ((C7_header tmDefeat clanAB).2 (by decide) (by decide)).trans (by decide)⟩

/-- C10: a two-team match with a non-empty member list and no roster
member is not training, and its header degenerates to the bare singular
defeat phrase `" has been defeated."` with an empty name part. -/
theorem C10_no_roster_header (tm : TeamMatch) (clan : List ConfigPlayer)
    (h2 : tm.teams.length = 2) (hne : tm.mtch.members ≠ [])
    (hnr : ∀ mb ∈ tm.mtch.members, ∀ cp ∈ clan, mb.profile.id ≠ cp.profileId) :
    is_training_game tm.teams (extract_clan_teammates tm clan)
      tm.mtch.members = false ∧
    formatter_message tm clan = " has been defeated." := by
  have hext : extract_clan_teammates tm clan = [] := by
    rw [extract_clan_teammates, if_pos h2]
    rw [List.flatMap_eq_nil_iff]
    intro mb hmb
    have hfil : clan.filter (fun cp => mb.profile.id == cp.profileId) = [] :=
      List.filter_eq_nil_iff.mpr
        (fun cp hcp => by simpa using hnr mb hmb cp hcp)
    rw [hfil]
    rfl
  have hmlen : tm.mtch.members.length ≠ 0 := by
    simpa [List.length_eq_zero] using hne
  have htr : is_training_game tm.teams (extract_clan_teammates tm clan)
      tm.mtch.members = false := by
    simp [is_training_game, hext, h2]
    omega
  refine ⟨htr, ?_⟩
  have htr2 : is_training_game tm.teams ([] : List Member)
      tm.mtch.members = false := hext ▸ htr
  have hmsg : formatter_message tm clan =
      generate_message false [] (clan_is_winner [] false) := by
    simp [formatter_message, hext, htr2]
  rw [hmsg]
  decide

/-- C10 witness: a concrete two-team match among strangers produces the
bare defeat phrase. -/
theorem C10_no_roster_witness :
    is_training_game tmStrangers.teams
      (extract_clan_teammates tmStrangers clanA) tmStrangers.mtch.members =
      false ∧
    formatter_message tmStrangers clanA = " has been defeated." :=
  C10_no_roster_header tmStrangers clanA (by decide) (by decide) (by decide)

end AoEBot
